import Mathlib

set_option maxRecDepth 8192

/-!
Shallow embedding of the `noir-runner` crate.

The embedding covers:
* `src/abi.rs` — the `ToNoir` conversion from a generic JSON-like value tree
  (`serde_json::Value`) into the Noir input value tree (`InputValue`);
* `src/error.rs` — the `Error` taxonomy;
* `src/runner.rs` — the `NoirRunner` orchestrator (`try_new`, `run`,
  `program_dir`, `export_directory`, `diagnose_nargo_error`).

External collaborators (file system, serde parsing, ABI encode/decode, the
ACVM solver, the nargo diagnostic reporter) are modelled as explicit
environment records of functions, so that `run`'s control flow — which is the
code under verification — is embedded faithfully while the collaborators stay
abstract.  Machine integers are modelled as `Nat`/`Int` with explicit range
conditions; the BN254 scalar field is modelled as residues below its prime
order.
-/

/- ## String order

Rust's `BTreeMap<String, _>` orders keys by `Ord` on `String`, which is
byte-wise lexicographic order on the UTF-8 encoding; this coincides with
code-point lexicographic order, embedded here as an executable comparison on
`String.data`.  The bridge lemma `strLtb_iff` identifies it with Lean's
`String` order. -/

def charListLt : List Char → List Char → Bool
  | [], [] => false
  | [], _ :: _ => true
  | _ :: _, [] => false
  | a :: as, b :: bs =>
    if a < b then true
    else if b < a then false
    else charListLt as bs

def strLtb (a b : String) : Bool := charListLt a.data b.data

theorem charListLt_iff (as bs : List Char) :
    charListLt as bs = true ↔ List.Lex (· < ·) as bs := by
  induction as generalizing bs with
  | nil =>
    cases bs with
    | nil =>
      simp only [charListLt, Bool.false_eq_true, false_iff]
      intro h
      cases h
    | cons b bs =>
      simp only [charListLt, true_iff]
      exact List.Lex.nil
  | cons a as ih =>
    cases bs with
    | nil =>
      simp only [charListLt, Bool.false_eq_true, false_iff]
      intro h
      cases h
    | cons b bs =>
      simp only [charListLt]
      split_ifs with h1 h2
      · simp only [true_iff]
        exact List.Lex.rel h1
      · simp only [Bool.false_eq_true, false_iff]
        intro h
        cases h with
        | cons h' => exact lt_irrefl _ h2
        | rel h' => exact h1 h'
      · have heq : a = b := le_antisymm (le_of_not_lt h2) (le_of_not_lt h1)
        subst heq
        rw [ih bs]
        constructor
        · intro h
          exact List.Lex.cons h
        · intro h
          cases h with
          | cons h' => exact h'
          | rel h' => exact absurd h' h1

theorem strLtb_iff (a b : String) : strLtb a b = true ↔ a < b := by
  rw [String.lt_iff_toList_lt]
  exact charListLt_iff a.data b.data

theorem strLtb_trans {a b c : String} (h1 : strLtb a b = true)
    (h2 : strLtb b c = true) : strLtb a c = true := by
  rw [strLtb_iff] at *
  exact lt_trans h1 h2

theorem strLtb_irrefl (a : String) : strLtb a a = false := by
  rw [← Bool.not_eq_true, strLtb_iff]
  exact lt_irrefl a

theorem strLtb_total {a b : String} (h1 : strLtb a b = false) (h2 : a ≠ b) :
    strLtb b a = true := by
  rw [strLtb_iff]
  rcases lt_trichotomy a b with h | h | h
  · rw [← strLtb_iff] at h
    rw [h] at h1
    exact absurd h1 (by simp)
  · exact absurd h h2
  · exact h

/- ## Data model of `serde_json::Value` and `noirc_abi` input values

A `serde_json::Number` is stored as a `u64` (`PosInt`), a negative `i64`
(`NegInt`), or a finite `f64` (`Float`); JSON numbers are always finite, and
the finite `f64` value is modelled by its exact rational value.  `is_i64`
holds for `PosInt` values up to `i64::MAX` and for every `NegInt`; `is_u64`
holds exactly for `PosInt`. -/

inductive JNumber where
  | posInt (n : Nat)
  | negInt (i : Int)
  | float (q : ℚ)
  deriving DecidableEq

inductive Json where
  | null
  | bool (b : Bool)
  | num (n : JNumber)
  | str (s : String)
  | arr (a : List Json)
  | obj (o : List (String × Json))

/-- The `noirc_abi::input_parser::InputValue` tree.  A `Field` is a BN254
scalar-field element, modelled as its canonical residue (a `Nat` below the
field order); `Struct` is a `BTreeMap<String, InputValue>`, modelled as a
key-sorted association list. -/
inductive InputValue where
  | field (f : Nat)
  | string (s : String)
  | vec (l : List InputValue)
  | struct (m : List (String × InputValue))

/-- Order of the BN254 scalar field used by `acvm::FieldElement`. -/
def bn254 : Nat :=
  21888242871839275222246405745257275088548364400416034343698204186575808495617

/-- Reduction of an integer into the BN254 scalar field, as performed by the
`From` conversions on `acvm::FieldElement`: the canonical residue modulo the
field order, with negative integers landing on the additive inverse of their
magnitude. -/
def fieldOfInt (x : Int) : Nat := (x % (bn254 : Int)).toNat

def i64MaxNat : Nat := 2 ^ 63 - 1

/-- Rust's `as i128` widening applied to an integer value: reduction into the
two's-complement 128-bit range.  On every `i64` value it is the identity. -/
def toI128 (x : Int) : Int := (x + 2 ^ 127) % 2 ^ 128 - 2 ^ 127

/-- Rust's saturating `as u64` cast applied to a finite float value `q`:
truncation toward zero, clamped into the `u64` range. -/
def f64AsU64 (q : ℚ) : Nat :=
  if q ≤ 0 then 0
  else if (2 : ℚ) ^ 64 ≤ q then 2 ^ 64 - 1
  else (⌊q⌋).toNat

def JNumber.isI64 : JNumber → Bool
  | .posInt n => n ≤ i64MaxNat
  | .negInt _ => true
  | .float _ => false

def JNumber.isU64 : JNumber → Bool
  | .posInt _ => true
  | .negInt _ => false
  | .float _ => false

def JNumber.asI64 : JNumber → Int
  | .posInt n => n
  | .negInt i => i
  | .float _ => 0

def JNumber.asU64 : JNumber → Nat
  | .posInt n => n
  | .negInt _ => 0
  | .float _ => 0

def JNumber.asF64 : JNumber → ℚ
  | .posInt n => n
  | .negInt i => i
  | .float q => q

/-- The `Value::Number` arm of `to_noir` (src/abi.rs lines 17–25): the
`is_i64` branch widens with `as i128` and embeds into the field, the `is_u64`
branch embeds the `u64` directly, and the remaining branch casts the `f64`
with `as u64` before embedding. -/
def numToField (n : JNumber) : Nat :=
  if n.isI64 then fieldOfInt (toI128 n.asI64)
  else if n.isU64 then n.asU64 % bn254
  else f64AsU64 n.asF64 % bn254

/-- Insertion into a key-sorted association list: the effect of one
`BTreeMap::insert` during `collect::<BTreeMap<String, InputValue>>()`, with a
later binding for an existing key overwriting the earlier one. -/
def insertSorted (k : String) (v : InputValue) :
    List (String × InputValue) → List (String × InputValue)
  | [] => [(k, v)]
  | (k', v') :: rest =>
    if strLtb k k' then (k, v) :: (k', v') :: rest
    else if k = k' then (k, v) :: rest
    else (k', v') :: insertSorted k v rest

mutual

/-- The `ToNoir::to_noir` conversion (src/abi.rs lines 13–37) on the generic
JSON value tree. -/
def to_noir : Json → InputValue
  | .null => .field 0
  | .bool b => .field (if b then 1 else 0)
  | .num n => .field (numToField n)
  | .str s => .string s
  | .arr a => .vec (to_noir_list a)
  | .obj o => .struct (to_noir_fold o [])

/-- Element-wise conversion of a JSON array (the
`a.into_iter().map(|v| v.to_noir()).collect()` of the `Value::Array` arm). -/
def to_noir_list : List Json → List InputValue
  | [] => []
  | v :: rest => to_noir v :: to_noir_list rest

/-- Conversion of a JSON object's bindings, in iteration order, collected
into a `BTreeMap` (the `Value::Object` arm). -/
def to_noir_fold :
    List (String × Json) → List (String × InputValue) → List (String × InputValue)
  | [], acc => acc
  | (k, v) :: rest, acc => to_noir_fold rest (insertSorted k (to_noir v) acc)

end

/-- How `serde_json` stores an integer in the signed 64-bit range: negative
values as `NegInt`, non-negative values as `PosInt`. -/
def jnumOfI64 (x : Int) : JNumber :=
  if x < 0 then .negInt x else .posInt x.toNat

/- ## The error taxonomy (src/error.rs)

Payloads of the external error types (`nargo_toml::ManifestError`,
`std::io::Error`, `serde_json::Error`, `noirc_abi::errors::AbiError`) are
opaque to this crate; they are modelled as strings.  The `Nargo` variant
carries a `String` in the source itself. -/

inductive Error where
  | nargoManifest (e : String)
  | ioErr (e : String)
  | serde (e : String)
  | abi (e : String)
  | nargo (s : String)

/- ## Opaque collaborator data (src/runner.rs)

The artifact bytes, encoded input witness map, per-frame witness, structured
nargo error and diagnostic are all opaque to the orchestrator code; each is
modelled as a `Nat`-tagged carrier. -/

structure ProgramArtifact where
  data : Nat

structure CompiledProgram where
  data : Nat

/-- The `Into::into` conversion from `ProgramArtifact` to `CompiledProgram`. -/
def ProgramArtifact.toCompiledProgram (a : ProgramArtifact) : CompiledProgram :=
  ⟨a.data⟩

/-- A witness stack as produced by `execute_program`: `peek` consults only the
first (outermost) frame, the one used for output decoding. -/
structure WitnessStack where
  frames : List Nat

def WitnessStack.peek (s : WitnessStack) : Option Nat := s.frames.head?

/-- Map from parameter name to input value (`BTreeMap<String, InputValue>`),
passed through to the ABI encoder unchanged. -/
abbrev InputMap := List (String × InputValue)

/-- Outcome of one `run` invocation.  Rust distinguishes returning
`Ok`/`Err` from unwinding via `panic`; `panicked` records a panic carrying
the value the failed `unwrap` was applied to. -/
inductive RunOutcome where
  | ok (v : Option InputValue)
  | err (e : Error)
  | panicked (e : Error)

/-- External collaborators of `NoirRunner::run`, one field per call the
orchestrator makes: `File::open` (+ `BufReader`), `serde_json::from_reader`,
`Abi::encode`, `execute_program` (also given the program directory handed to
`DefaultForeignCallExecutor`), `try_to_diagnose_runtime_error`, the
`format!` rendering of a `NargoError` via `Debug`, and `Abi::decode` (whose
success value pairs the decoded input map with the optional return value). -/
structure RunEnv where
  openFile : String → Except String Nat
  parseArtifact : Nat → Except String ProgramArtifact
  encode : CompiledProgram → InputMap → Except String Nat
  execute : CompiledProgram → Nat → String → Except Nat WitnessStack
  tryDiagnose : Nat → CompiledProgram → Option Nat
  renderErr : Nat → String
  decode : CompiledProgram → Nat → Except String (InputMap × Option InputValue)

/-- External collaborators of `NoirRunner::try_new`: `get_package_manifest`
and `resolve_workspace_from_toml(..).export_directory_path()`, the latter
parameterized by the fixed artifact-format version string. -/
structure SetupEnv where
  get_package_manifest : String → Except String Nat
  resolve_export_directory : Nat → String → Except String String

/-- Fixed artifact-format version tag (`NOIR_ARTIFACT_VERSION_STRING`). -/
def NOIR_ARTIFACT_VERSION_STRING : String := "1.0.0-beta.0"

/-- The orchestrator state (src/runner.rs lines 24–28): the program root and
the resolved export directory, both owned path values. -/
structure NoirRunner where
  program_dir : String
  export_directory : String

/-- The `NoirRunner::try_new` constructor (src/runner.rs lines 50–63). -/
def NoirRunner.try_new (env : SetupEnv) (program_dir : String) :
    Except Error NoirRunner :=
  match env.get_package_manifest program_dir with
  | .error e => .error (.nargoManifest e)
  | .ok manifest =>
    match env.resolve_export_directory manifest NOIR_ARTIFACT_VERSION_STRING with
    | .error e => .error (.nargoManifest e)
    | .ok export_directory => .ok ⟨program_dir, export_directory⟩

/-- The artifact path computed on src/runner.rs line 93:
`self.export_directory.join(format!("{fn_name}.json"))`. -/
def NoirRunner.fn_path (r : NoirRunner) (fn_name : String) : String :=
  r.export_directory ++ "/" ++ fn_name ++ ".json"

/-- The `NoirRunner::diagnose_nargo_error` helper (src/runner.rs lines
135–151): when `try_to_diagnose_runtime_error` produces a diagnostic it is
reported as a side effect; the original error is returned in either case. -/
def diagnose_nargo_error (env : RunEnv) (program : CompiledProgram)
    (err : Nat) : Nat :=
  match env.tryDiagnose err program with
  | some _ => err
  | none => err

/-- The `NoirRunner::run` method (src/runner.rs lines 88–123).  Note the
serde failure path: the source applies `.map_err(Error::Serde)` and then
`.unwrap()`, so a parse failure panics with the mapped error instead of
returning it. -/
def NoirRunner.run (env : RunEnv) (r : NoirRunner) (fn_name : String)
    (input_map : InputMap) : RunOutcome :=
  match env.openFile (r.fn_path fn_name) with
  | .error e => .err (.ioErr e)
  | .ok reader =>
    match env.parseArtifact reader with
    | .error e => .panicked (.serde e)
    | .ok artifact =>
      let program := artifact.toCompiledProgram
      match env.encode program input_map with
      | .error e => .err (.abi e)
      | .ok encoded =>
        match env.execute program encoded r.program_dir with
        | .error err =>
          .err (.nargo (env.renderErr (diagnose_nargo_error env program err)))
        | .ok solved_witness_stack =>
          match solved_witness_stack.peek with
          | none => .ok none
          | some witness =>
            match env.decode program witness with
            | .error e => .err (.abi e)
            | .ok result => .ok result.2

/-- One borrow-checked invocation: `run` takes `&self`, so the runner state
available after the call is exactly the two fields the method could read. -/
def NoirRunner.runState (env : RunEnv) (r : NoirRunner) (fn_name : String)
    (input_map : InputMap) : RunOutcome × NoirRunner :=
  (r.run env fn_name input_map,
   { program_dir := r.program_dir, export_directory := r.export_directory })

/-- A sequence of `run` invocations on one orchestrator, threading the
runner state through the calls. -/
def NoirRunner.runSeq (env : RunEnv) (r : NoirRunner) :
    List (String × InputMap) → List RunOutcome × NoirRunner
  | [] => ([], r)
  | c :: calls =>
    let step := r.runState env c.1 c.2
    let rest := NoirRunner.runSeq env step.2 calls
    (step.1 :: rest.1, rest.2)

/- ## Basic facts about the numeric conversions -/

theorem toI128_eq_self {x : Int} (h1 : -(2 ^ 63) ≤ x) (h2 : x < 2 ^ 63) :
    toI128 x = x := by
  unfold toI128
  omega

theorem fieldOfInt_of_neg {x : Int} (h1 : -(2 ^ 63) ≤ x) (h2 : x < 0) :
    fieldOfInt x = bn254 - x.natAbs := by
  unfold fieldOfInt bn254
  omega

theorem fieldOfInt_of_nonneg {x : Int} (h1 : 0 ≤ x) (h2 : x < 2 ^ 63) :
    fieldOfInt x = x.toNat := by
  unfold fieldOfInt bn254
  omega

theorem f64AsU64_lt (q : ℚ) : f64AsU64 q < 2 ^ 64 := by
  unfold f64AsU64
  split_ifs with h1 h2
  · positivity
  · norm_num
  · push_neg at h1 h2
    have hfl : ⌊q⌋ < 2 ^ 64 := by
      rw [Int.floor_lt]
      push_cast
      exact h2
    omega

theorem to_noir_float (q : ℚ) :
    to_noir (.num (.float q)) = .field (f64AsU64 q) := by
  have hlt : f64AsU64 q < bn254 := by
    have := f64AsU64_lt q
    have hb : 2 ^ 64 < bn254 := by unfold bn254; norm_num
    omega
  simp [to_noir, numToField, JNumber.isI64, JNumber.isU64, JNumber.asF64,
    Nat.mod_eq_of_lt hlt]

theorem to_noir_list_eq_map (a : List Json) : to_noir_list a = a.map to_noir := by
  induction a with
  | nil => simp [to_noir_list]
  | cons v rest ih => simp [to_noir_list, ih]

/-- C2: for every integer representable in the signed 64-bit range, conversion
yields a `Scalar` equal to the integer embedded into the field — the residue
of the value modulo the field order, so a negative value maps to the field
order minus its magnitude — and the `as i128` widening applied before the
conversion is lossless on this range. -/
theorem signed_integer_conversion_embeds_into_field (x : Int)
    (h1 : -(2 ^ 63) ≤ x) (h2 : x < 2 ^ 63) :
    to_noir (.num (jnumOfI64 x)) = .field (fieldOfInt x) ∧
    toI128 x = x ∧
    (x < 0 → fieldOfInt x = bn254 - x.natAbs) ∧
    (0 ≤ x → fieldOfInt x = x.toNat) := by
  refine ⟨?_, toI128_eq_self h1 h2, fun hx => fieldOfInt_of_neg h1 hx,
    fun hx => fieldOfInt_of_nonneg hx h2⟩
  unfold jnumOfI64
  split_ifs with hx
  · simp [to_noir, numToField, JNumber.isI64, JNumber.asI64,
      toI128_eq_self h1 h2]
  · push_neg at hx
    have htn : (x.toNat : Int) = x := Int.toNat_of_nonneg hx
    have hle : x.toNat ≤ i64MaxNat := by
      unfold i64MaxNat
      omega
    simp [to_noir, numToField, JNumber.isI64, JNumber.asI64, hle, htn,
      toI128_eq_self h1 h2]

/-- Witness for C2 at the concrete input `-7`. -/
theorem signed_integer_conversion_embeds_into_field_witness :
    to_noir (.num (jnumOfI64 (-7))) = .field (fieldOfInt (-7)) ∧
    fieldOfInt (-7) = bn254 - 7 := by
  have h := signed_integer_conversion_embeds_into_field (-7) (by norm_num)
    (by norm_num)
  exact ⟨h.1, by rw [h.2.2.1 (by norm_num)]; norm_num⟩

theorem to_noir_byte {b : Nat} (hb : b < 256) :
    to_noir (.num (.posInt b)) = .field b := by
  have hle : b ≤ i64MaxNat := by
    unfold i64MaxNat
    omega
  have h128 : toI128 (b : Int) = b := toI128_eq_self (by omega) (by omega)
  have hf : fieldOfInt (b : Int) = b := by
    rw [fieldOfInt_of_nonneg (by omega) (by omega)]
    exact Int.toNat_natCast b
  simp [to_noir, numToField, JNumber.isI64, JNumber.asI64, hle, h128, hf]

/-- C4: for every array input, conversion yields a `Sequence` of the
per-element conversions in source order; the result is never a `Text`; and a
byte array `[b0, ..., bn]` converts to the `Sequence` of the single-byte
`Scalar`s `Scalar(b0), ..., Scalar(bn)`. -/
theorem array_conversion_is_elementwise_sequence :
    (∀ a : List Json, to_noir (.arr a) = .vec (a.map to_noir)) ∧
    (∀ (a : List Json) (s : String), to_noir (.arr a) ≠ .string s) ∧
    (∀ bs : List Nat, (∀ b ∈ bs, b < 256) →
      to_noir (.arr (bs.map (fun b => .num (.posInt b)))) =
        .vec (bs.map (fun b => .field b))) := by
  refine ⟨fun a => by simp [to_noir, to_noir_list_eq_map], fun a s => by simp [to_noir], ?_⟩
  intro bs hbs
  rw [show to_noir (.arr (bs.map (fun b => .num (.posInt b)))) =
      .vec ((bs.map (fun b => Json.num (.posInt b))).map to_noir) from by
    simp [to_noir, to_noir_list_eq_map]]
  rw [List.map_map]
  congr 1
  apply List.map_congr_left
  intro b hb
  exact to_noir_byte (hbs b hb)

/-- Witness for C4 at the concrete byte array `[1, 2, 3]`. -/
theorem array_conversion_is_elementwise_sequence_witness :
    to_noir (.arr [.num (.posInt 1), .num (.posInt 2), .num (.posInt 3)]) =
      .vec [.field 1, .field 2, .field 3] := by
  have h := array_conversion_is_elementwise_sequence.2.2 [1, 2, 3] (by decide)
  simpa using h

/-- C8: every non-integral number converts to a `Scalar` holding the value of
the saturating unsigned 64-bit cast; the cast value fits in 64 bits, equals
the truncation of the number when the number lies in the unsigned 64-bit
range, and the conversion never reports an error (it is a total function into
`InputValue`). -/
theorem nonintegral_number_conversion_truncates (q : ℚ) (_hq : q.den ≠ 1) :
    to_noir (.num (.float q)) = .field (f64AsU64 q) ∧
    f64AsU64 q < 2 ^ 64 ∧
    (0 ≤ q → q < (2 : ℚ) ^ 64 → (f64AsU64 q : ℤ) = ⌊q⌋) := by
  refine ⟨to_noir_float q, f64AsU64_lt q, fun h0 h1 => ?_⟩
  unfold f64AsU64
  split_ifs with ha hb
  · have hq0 : q = 0 := le_antisymm ha h0
    simp [hq0]
  · exact absurd hb (not_le.mpr h1)
  · exact Int.toNat_of_nonneg (Int.floor_nonneg.mpr h0)

/-- Witness for C8 at the concrete input `5/2`. -/
theorem nonintegral_number_conversion_truncates_witness :
    to_noir (.num (.float (mkRat 5 2))) = .field 2 := by
  have h := nonintegral_number_conversion_truncates (mkRat 5 2) (by decide)
  rw [h.1, show f64AsU64 (mkRat 5 2) = 2 from by decide]

/-- C10: the `as u64` cast in the non-integral branch saturates rather than
wrapping — every negative non-integral number converts to `Scalar(0)`, and
every non-integral number greater than `2^64 - 1` converts to
`Scalar(2^64 - 1)`. -/
theorem nonintegral_cast_saturates (q : ℚ) (_hq : q.den ≠ 1) :
    (q < 0 → to_noir (.num (.float q)) = .field 0) ∧
    ((2 : ℚ) ^ 64 - 1 < q → to_noir (.num (.float q)) = .field (2 ^ 64 - 1)) := by
  constructor
  · intro h
    rw [to_noir_float]
    congr 1
    unfold f64AsU64
    rw [if_pos (le_of_lt h)]
  · intro h
    rw [to_noir_float]
    congr 1
    unfold f64AsU64
    have h0 : ¬ q ≤ 0 := by
      push_neg
      calc (0 : ℚ) < 2 ^ 64 - 1 := by norm_num
        _ < q := h
    rw [if_neg h0]
    by_cases hb : (2 : ℚ) ^ 64 ≤ q
    · rw [if_pos hb]
    · rw [if_neg hb]
      push_neg at hb
      have hfl_ge : (2 ^ 64 - 1 : ℤ) ≤ ⌊q⌋ := by
        apply Int.le_floor.mpr
        push_cast
        linarith [h]
      have hfl_lt : ⌊q⌋ < 2 ^ 64 := by
        rw [Int.floor_lt]
        push_cast
        linarith [hb]
      omega

/-- Witness for C10 at the concrete inputs `-7/2` and `2^64 - 1/2`. -/
theorem nonintegral_cast_saturates_witness :
    to_noir (.num (.float (mkRat (-7) 2))) = .field 0 ∧
    to_noir (.num (.float (mkRat (2 ^ 65 - 1) 2))) = .field (2 ^ 64 - 1) := by
  constructor
  · exact (nonintegral_cast_saturates _ (by decide)).1 (by decide)
  · refine (nonintegral_cast_saturates _ (by decide)).2 ?_
    rw [show ((2 : ℚ) ^ 64 - 1) = mkRat (2 ^ 65 - 2) 2 from by
      rw [Rat.mkRat_eq_divInt, Rat.divInt_eq_div]; norm_num]
    decide

/- ## Sorted-record lemmas for the object conversion -/

theorem insertSorted_mem_weak {p : String × InputValue} {k : String}
    {v : InputValue} {m : List (String × InputValue)}
    (h : p ∈ insertSorted k v m) : p = (k, v) ∨ p ∈ m := by
  induction m with
  | nil => simpa [insertSorted] using h
  | cons hd tl ih =>
    obtain ⟨k', v'⟩ := hd
    rw [insertSorted] at h
    split_ifs at h with h1 h2
    · rcases List.mem_cons.mp h with h' | h'
      · exact Or.inl h'
      · exact Or.inr h'
    · rcases List.mem_cons.mp h with h' | h'
      · exact Or.inl h'
      · exact Or.inr (List.mem_cons_of_mem _ h')
    · rcases List.mem_cons.mp h with h' | h'
      · exact Or.inr (h' ▸ List.mem_cons_self _ _)
      · rcases ih h' with h'' | h''
        · exact Or.inl h''
        · exact Or.inr (List.mem_cons_of_mem _ h'')

theorem insertSorted_mem_self (k : String) (v : InputValue)
    (m : List (String × InputValue)) : (k, v) ∈ insertSorted k v m := by
  induction m with
  | nil => simp [insertSorted]
  | cons hd tl ih =>
    obtain ⟨k', v'⟩ := hd
    rw [insertSorted]
    split_ifs with h1 h2
    · exact List.mem_cons_self _ _
    · exact List.mem_cons_self _ _
    · exact List.mem_cons_of_mem _ ih

theorem insertSorted_mem_of_ne {k' : String} {w : InputValue} {k : String}
    {v : InputValue} {m : List (String × InputValue)}
    (h : (k', w) ∈ m) (hne : k' ≠ k) : (k', w) ∈ insertSorted k v m := by
  induction m with
  | nil => cases h
  | cons hd tl ih =>
    obtain ⟨k0, v0⟩ := hd
    rw [insertSorted]
    split_ifs with h1 h2
    · exact List.mem_cons_of_mem _ h
    · rcases List.mem_cons.mp h with h' | h'
      · refine absurd ?_ hne
        have hk : k' = k0 := congrArg Prod.fst h'
        rw [hk, h2]
      · exact List.mem_cons_of_mem _ h'
    · rcases List.mem_cons.mp h with h' | h'
      · exact h' ▸ List.mem_cons_self _ _
      · exact List.mem_cons_of_mem _ (ih h')

theorem insertSorted_sorted {k : String} {v : InputValue}
    {m : List (String × InputValue)}
    (h : m.Pairwise (fun p q => strLtb p.1 q.1 = true)) :
    (insertSorted k v m).Pairwise (fun p q => strLtb p.1 q.1 = true) := by
  induction m with
  | nil => simp [insertSorted]
  | cons hd tl ih =>
    obtain ⟨k0, v0⟩ := hd
    rw [List.pairwise_cons] at h
    obtain ⟨h0, htl⟩ := h
    rw [insertSorted]
    split_ifs with h1 h2
    · refine List.pairwise_cons.mpr ⟨?_, List.pairwise_cons.mpr ⟨h0, htl⟩⟩
      intro q hq
      rcases List.mem_cons.mp hq with h' | h'
      · rw [h']
        exact h1
      · exact strLtb_trans h1 (h0 q h')
    · refine List.pairwise_cons.mpr ⟨?_, htl⟩
      intro q hq
      rw [h2]
      exact h0 q hq
    · refine List.pairwise_cons.mpr ⟨?_, ih htl⟩
      intro q hq
      rcases insertSorted_mem_weak hq with h' | h'
      · rw [h']
        show strLtb k0 k = true
        exact strLtb_total (Bool.not_eq_true _ ▸ h1) h2
      · exact h0 q h'

theorem to_noir_fold_sorted (o : List (String × Json))
    (acc : List (String × InputValue))
    (h : acc.Pairwise (fun p q => strLtb p.1 q.1 = true)) :
    (to_noir_fold o acc).Pairwise (fun p q => strLtb p.1 q.1 = true) := by
  induction o generalizing acc with
  | nil => simpa [to_noir_fold] using h
  | cons hd tl ih =>
    obtain ⟨k, v⟩ := hd
    rw [to_noir_fold]
    exact ih _ (insertSorted_sorted h)

theorem to_noir_fold_mem_weak {o : List (String × Json)}
    {acc : List (String × InputValue)} {p : String × InputValue}
    (h : p ∈ to_noir_fold o acc) :
    p ∈ acc ∨ ∃ kv ∈ o, p = (kv.1, to_noir kv.2) := by
  induction o generalizing acc with
  | nil => exact Or.inl (by simpa [to_noir_fold] using h)
  | cons hd tl ih =>
    obtain ⟨k, v⟩ := hd
    rw [to_noir_fold] at h
    rcases ih h with h' | h'
    · rcases insertSorted_mem_weak h' with h'' | h''
      · exact Or.inr ⟨(k, v), List.mem_cons_self _ _, h''⟩
      · exact Or.inl h''
    · obtain ⟨kv, hkv, hp⟩ := h'
      exact Or.inr ⟨kv, List.mem_cons_of_mem _ hkv, hp⟩

theorem to_noir_fold_mem_preserved {o : List (String × Json)}
    {acc : List (String × InputValue)} {k : String} {w : InputValue}
    (h : (k, w) ∈ acc) (hk : k ∉ o.map Prod.fst) :
    (k, w) ∈ to_noir_fold o acc := by
  induction o generalizing acc with
  | nil => simpa [to_noir_fold] using h
  | cons hd tl ih =>
    obtain ⟨k0, v0⟩ := hd
    rw [to_noir_fold]
    rw [List.map_cons, List.mem_cons] at hk
    push_neg at hk
    exact ih (insertSorted_mem_of_ne h hk.1) hk.2

theorem to_noir_fold_mem_complete {o : List (String × Json)}
    {k : String} {v : Json} (acc : List (String × InputValue))
    (h : (k, v) ∈ o) (hnd : (o.map Prod.fst).Nodup) :
    (k, to_noir v) ∈ to_noir_fold o acc := by
  induction o generalizing acc with
  | nil => cases h
  | cons hd tl ih =>
    obtain ⟨k0, v0⟩ := hd
    rw [List.map_cons, List.nodup_cons] at hnd
    rw [to_noir_fold]
    rcases List.mem_cons.mp h with h' | h'
    · have hk : k = k0 := congrArg Prod.fst h'
      have hv : v = v0 := congrArg Prod.snd h'
      subst hk
      subst hv
      exact to_noir_fold_mem_preserved (insertSorted_mem_self _ _ _) hnd.1
    · exact ih _ h' hnd.2

/-- C3: for every object input whose keys are distinct (as in any
`serde_json` map), conversion yields a `Record` whose keys are strictly
sorted in lexicographic order regardless of the source binding order, whose
bindings contain the recursive conversion of every source binding, and whose
every binding comes from a source binding by the same conversion. -/
theorem object_conversion_sorts_keys (o : List (String × Json))
    (hnd : (o.map Prod.fst).Nodup) :
    ∃ m, to_noir (.obj o) = .struct m ∧
      m.Pairwise (fun p q => p.1 < q.1) ∧
      (∀ k v, (k, v) ∈ o → (k, to_noir v) ∈ m) ∧
      (∀ p ∈ m, ∃ kv ∈ o, p = (kv.1, to_noir kv.2)) := by
  refine ⟨to_noir_fold o [], by rw [to_noir], ?_, ?_, ?_⟩
  · have hs := to_noir_fold_sorted o [] (by simp)
    exact hs.imp (fun hpq => (strLtb_iff _ _).mp hpq)
  · intro k v hkv
    exact to_noir_fold_mem_complete [] hkv hnd
  · intro p hp
    rcases to_noir_fold_mem_weak hp with h | h
    · cases h
    · exact h

/-- Witness for C3 at the concrete object with bindings in the order
`b, a`. -/
theorem object_conversion_sorts_keys_witness :
    (([("b", Json.null), ("a", Json.bool true)].map Prod.fst).Nodup) ∧
    ∃ m, to_noir (.obj [("b", Json.null), ("a", Json.bool true)]) = .struct m ∧
      m.Pairwise (fun p q => p.1 < q.1) ∧
      (∀ k v, (k, v) ∈ [("b", Json.null), ("a", Json.bool true)] →
        (k, to_noir v) ∈ m) ∧
      (∀ p ∈ m, ∃ kv ∈ [("b", Json.null), ("a", Json.bool true)],
        p = (kv.1, to_noir kv.2)) :=
  ⟨by decide, object_conversion_sorts_keys _ (by decide)⟩

/- ## Concrete environments used as witnesses for the orchestrator claims -/

def testRunner : NoirRunner := ⟨"tests", "tests/export"⟩

/-- Environment in which every step succeeds and the solver returns an empty
witness stack. -/
def emptyStackEnv : RunEnv where
  openFile := fun _ => .ok 0
  parseArtifact := fun _ => .ok ⟨0⟩
  encode := fun _ _ => .ok 0
  execute := fun _ _ _ => .ok ⟨[]⟩
  tryDiagnose := fun _ _ => none
  renderErr := fun _ => ""
  decode := fun _ _ => .error "unused"

/-- Environment in which the artifact file cannot be opened. -/
def ioFailEnv : RunEnv :=
  { emptyStackEnv with openFile := fun _ => .error "No such file or directory (os error 2)" }

/-- Environment in which the artifact file opens but its content does not
parse as a `ProgramArtifact`. -/
def serdeFailEnv : RunEnv :=
  { emptyStackEnv with parseArtifact := fun _ => .error "expected value at line 1 column 1" }

/-- Environment in which the solver fails with a structured error rendered as
a fixed diagnostic string. -/
def execFailEnv : RunEnv :=
  { emptyStackEnv with
      execute := fun _ _ _ => .error 7
      renderErr := fun _ => "Cannot satisfy constraint" }

/-- Environment in which the solver returns one witness frame that decodes to
a void return value. -/
def voidDecodeEnv : RunEnv :=
  { emptyStackEnv with
      execute := fun _ _ _ => .ok ⟨[5]⟩
      decode := fun _ _ => .ok ([], none) }

def senv0 : SetupEnv where
  get_package_manifest := fun _ => .ok 0
  resolve_export_directory := fun _ _ => .ok "tests/export"

/-- C7: whenever opening the artifact file at
`export_root/(function_name + ".json")` fails, `run` returns an `IoError`
carrying the file-system failure. -/
theorem run_open_failure_returns_io_error (env : RunEnv) (r : NoirRunner)
    (fn_name : String) (input_map : InputMap) (e : String)
    (h : env.openFile (r.fn_path fn_name) = .error e) :
    r.run env fn_name input_map = .err (.ioErr e) := by
  unfold NoirRunner.run
  rw [h]

/-- Witness for C7 in the environment where the artifact file is missing. -/
theorem run_open_failure_returns_io_error_witness :
    NoirRunner.run ioFailEnv testRunner "addition" [] =
      .err (.ioErr "No such file or directory (os error 2)") :=
  run_open_failure_returns_io_error ioFailEnv testRunner "addition" [] _ rfl

/-- C1 (refuted): when the artifact file opens but its content cannot be
parsed, `run` does not return the `Serde` error to the caller — the
`.map_err(Error::Serde).unwrap()` on src/runner.rs lines 97–99 panics with
it instead, contradicting the function's own error documentation. -/
theorem run_unparsable_artifact_panics :
    NoirRunner.run serdeFailEnv testRunner "addition" [] =
      .panicked (.serde "expected value at line 1 column 1") := rfl

/-- C5: when every step up to the solver succeeds, an empty witness stack
makes `run` return an absent output (no error); a non-empty stack has only
its first (outermost) frame decoded, with the remaining frames never
consulted — a decode failure on that frame is an `AbiError`, and a decoded
void return (as for a function whose declared return shape is empty) is the
success outcome `none`. -/
theorem run_success_uses_first_frame (env : RunEnv) (r : NoirRunner)
    (fn_name : String) (input_map : InputMap) (rd : Nat)
    (artifact : ProgramArtifact) (enc : Nat)
    (hopen : env.openFile (r.fn_path fn_name) = .ok rd)
    (hparse : env.parseArtifact rd = .ok artifact)
    (henc : env.encode artifact.toCompiledProgram input_map = .ok enc) :
    ∀ stack,
      env.execute artifact.toCompiledProgram enc r.program_dir = .ok stack →
      ((stack.frames = [] → r.run env fn_name input_map = .ok none) ∧
       (∀ w rest e, stack.frames = w :: rest →
          env.decode artifact.toCompiledProgram w = .error e →
          r.run env fn_name input_map = .err (.abi e)) ∧
       (∀ w rest im ret, stack.frames = w :: rest →
          env.decode artifact.toCompiledProgram w = .ok (im, ret) →
          r.run env fn_name input_map = .ok ret)) := by
  intro stack hexec
  refine ⟨?_, ?_, ?_⟩
  · intro hfr
    unfold NoirRunner.run
    simp only [hopen, hparse, henc, hexec, WitnessStack.peek, hfr, List.head?]
  · intro w rest e hfr hdec
    unfold NoirRunner.run
    simp only [hopen, hparse, henc, hexec, WitnessStack.peek, hfr, List.head?, hdec]
  · intro w rest im ret hfr hdec
    unfold NoirRunner.run
    simp only [hopen, hparse, henc, hexec, WitnessStack.peek, hfr, List.head?, hdec]

/-- Witness for C5: an empty-stack invocation and a void-return invocation
both return an absent output. -/
theorem run_success_uses_first_frame_witness :
    NoirRunner.run emptyStackEnv testRunner "addition" [] = .ok none ∧
    NoirRunner.run voidDecodeEnv testRunner "addition" [] = .ok none :=
  ⟨(run_success_uses_first_frame emptyStackEnv testRunner "addition" [] 0 ⟨0⟩ 0
      rfl rfl rfl ⟨[]⟩ rfl).1 rfl,
   (run_success_uses_first_frame voidDecodeEnv testRunner "addition" [] 0 ⟨0⟩ 0
      rfl rfl rfl ⟨[5]⟩ rfl).2.2 5 [] [] none rfl rfl⟩

/-- C6: when the solver fails, `diagnose_nargo_error` returns the original
failure unchanged whether or not a diagnostic could be produced, `run`
surfaces an `ExecutionError` carrying the rendered text of the original
failure, and replacing the diagnosis collaborator changes nothing about the
outcome of `run`. -/
theorem run_execution_failure_non_escalating (env : RunEnv) (r : NoirRunner)
    (fn_name : String) (input_map : InputMap) (rd : Nat)
    (artifact : ProgramArtifact) (enc : Nat) (e : Nat)
    (hopen : env.openFile (r.fn_path fn_name) = .ok rd)
    (hparse : env.parseArtifact rd = .ok artifact)
    (henc : env.encode artifact.toCompiledProgram input_map = .ok enc)
    (hexec : env.execute artifact.toCompiledProgram enc r.program_dir = .error e) :
    r.run env fn_name input_map = .err (.nargo (env.renderErr e)) ∧
    diagnose_nargo_error env artifact.toCompiledProgram e = e ∧
    (∀ d, NoirRunner.run
        ⟨env.openFile, env.parseArtifact, env.encode, env.execute, d,
          env.renderErr, env.decode⟩ r fn_name input_map =
      r.run env fn_name input_map) := by
  have hdiag : ∀ (env' : RunEnv) (prog : CompiledProgram),
      diagnose_nargo_error env' prog e = e := by
    intro env' prog
    unfold diagnose_nargo_error
    cases env'.tryDiagnose e prog <;> rfl
  refine ⟨?_, hdiag env _, ?_⟩
  · unfold NoirRunner.run
    simp only [hopen, hparse, henc, hexec]
    rw [hdiag]
  · intro d
    unfold NoirRunner.run
    simp only [hopen, hparse, henc, hexec]
    rw [hdiag, hdiag]

/-- Witness for C6 in the environment where the solver fails. -/
theorem run_execution_failure_non_escalating_witness :
    NoirRunner.run execFailEnv testRunner "addition" [] =
      .err (.nargo "Cannot satisfy constraint") :=
  (run_execution_failure_non_escalating execFailEnv testRunner "addition" []
    0 ⟨0⟩ 0 7 rfl rfl rfl rfl).1

theorem runState_snd (env : RunEnv) (r : NoirRunner) (fn_name : String)
    (input_map : InputMap) : (r.runState env fn_name input_map).2 = r := rfl

theorem runSeq_frame (env : RunEnv) (r : NoirRunner)
    (calls : List (String × InputMap)) :
    (NoirRunner.runSeq env r calls).2 = r ∧
    (NoirRunner.runSeq env r calls).1 =
      calls.map (fun c => r.run env c.1 c.2) := by
  induction calls with
  | nil => exact ⟨rfl, rfl⟩
  | cons c rest ih =>
    rw [NoirRunner.runSeq, runState_snd]
    refine ⟨ih.1, ?_⟩
    rw [List.map_cons, ih.2]
    rfl

/-- C9: the orchestrator is immutable after construction — `try_new` stores
the given program root and the resolved export directory, a sequence of `run`
invocations leaves the stored path values unchanged with each invocation's
outcome depending only on the construction-time state, and the accessors are
pure reads of exactly the two stored paths. -/
theorem orchestrator_state_immutable (senv : SetupEnv) (env : RunEnv)
    (program_dir : String) (r : NoirRunner)
    (h : NoirRunner.try_new senv program_dir = .ok r) :
    r.program_dir = program_dir ∧
    (∀ manifest export_dir,
      senv.get_package_manifest program_dir = .ok manifest →
      senv.resolve_export_directory manifest NOIR_ARTIFACT_VERSION_STRING =
        .ok export_dir →
      r.export_directory = export_dir) ∧
    (∀ calls, (NoirRunner.runSeq env r calls).2 = r ∧
      (NoirRunner.runSeq env r calls).1 =
        calls.map (fun c => r.run env c.1 c.2)) := by
  unfold NoirRunner.try_new at h
  cases hm : senv.get_package_manifest program_dir with
  | error e =>
    simp only [hm] at h
    cases h
  | ok manifest =>
    simp only [hm] at h
    cases hd : senv.resolve_export_directory manifest NOIR_ARTIFACT_VERSION_STRING with
    | error e =>
      simp only [hd] at h
      cases h
    | ok export_dir =>
      simp only [hd] at h
      cases h
      refine ⟨rfl, ?_, fun calls => runSeq_frame env _ calls⟩
      intro m' d' hm' hd'
      have hmm : manifest = m' := Except.ok.inj hm'
      subst hmm
      exact Except.ok.inj (hd.symm.trans hd')

/-- Witness for C9: one concrete construction followed by two invocations. -/
theorem orchestrator_state_immutable_witness :
    (NoirRunner.runSeq emptyStackEnv testRunner
      [("addition", []), ("subtraction", [])]).2 = testRunner :=
  ((orchestrator_state_immutable senv0 emptyStackEnv "tests" testRunner
    rfl).2.2 _).1
